import Mathlib

/-!
Shallow embedding of the Vox voice-gateway bridge (Python sources:
`services/audio_service.py`, `services/openai_service.py`, `server.py`,
`config.py`) together with theorems settling the specification claims.

Conventions for translating Python integer arithmetic to `Int`:
* Python `x >> n` (arithmetic shift on unbounded ints) is floor division
  by `2 ^ n`; Lean's `Int` `/` is Euclidean division, which equals floor
  division whenever the divisor is positive, so `x / 2 ^ n` is exact.
* Python `x & (2 ^ k - 1)` on unbounded two's-complement ints is `x % 2 ^ k`
  with a nonnegative result; Lean's `Int` `%` (emod) matches exactly.
* Python `x & 0x80` extracts bit 7, i.e. `(x / 128 % 2) * 128`.
* Python `~x` is `-x - 1`.
* Python `|` of values occupying disjoint bit ranges is addition.
-/

namespace VoxSpec

/-- Python `x >> n` on unbounded ints (floor shift; divisor positive). -/
def pyShr (x : Int) (n : Nat) : Int := x / 2 ^ n

/-- Python `x & 0x80` on unbounded ints: bit 7 of the two's complement. -/
def pyBit7 (x : Int) : Int := x / 128 % 2 * 128

/-- Python `~x` on unbounded ints. -/
def pyNot (x : Int) : Int := -x - 1

/-- ASCII whitespace stripped by Python `str.strip()`. -/
def pyIsSpace (c : Char) : Bool :=
  c == ' ' || c == '\t' || c == '\n' || c == '\r' || c == '\x0b' || c == '\x0c'

/-- Python `s.strip()` (exact on the ASCII fragment). -/
def pyStrip (s : String) : String :=
  ⟨((s.data.dropWhile pyIsSpace).reverse.dropWhile pyIsSpace).reverse⟩

/-- Python lowercasing of one character (ASCII fragment). -/
def pyLowerChar (c : Char) : Char :=
  if 'A' ≤ c && c ≤ 'Z' then Char.ofNat (c.toNat + 32) else c

/-- Python `s.lower()` (exact on the ASCII fragment). -/
def pyLower (s : String) : String := ⟨s.data.map pyLowerChar⟩

/-- Python `s.startswith(p)`. -/
def pyStartsWith (s p : String) : Bool := p.data.isPrefixOf s.data

/-- Python `s.endswith(p)`. -/
def pyEndsWith (s p : String) : Bool := p.data.reverse.isPrefixOf s.data.reverse

/-- Python string falsiness (`not s` / `if s:`). -/
def pyStrEmpty (s : String) : Bool := s.data.isEmpty

namespace MuLawConverter

/-- `MULAW_BIAS = 0x84` from `MuLawConverter`. -/
def MULAW_BIAS : Int := 0x84

/-- `MULAW_MAX = 0x1FFF` from `MuLawConverter`. -/
def MULAW_MAX : Int := 0x1FFF

/-- The `for exp in range(7, -1, -1)` search in `_linear_to_mulaw`: the first
`exp` (scanning downward) with `sample >= 1 << (exp + 3)` is taken; if none
matches, the initial value `7` stands. -/
def exponentSearch (sample : Int) : List Nat → Nat
  | [] => 7
  | e :: rest => if 2 ^ (e + 3) ≤ sample then e else exponentSearch sample rest

/-- Exponent chosen by `_linear_to_mulaw` for the biased sample. -/
def findExponent (sample : Int) : Nat :=
  exponentSearch sample [7, 6, 5, 4, 3, 2, 1, 0]

/-- `MuLawConverter._linear_to_mulaw` (audio_service.py lines 18-41).
`sign`, `exponent << 4` and `mantissa` occupy disjoint bit ranges
(bit 7 / bits 4-6 / bits 0-3), so the Python `|` is addition. -/
def linear_to_mulaw (sample : Int) : Int :=
  let sign : Int := pyBit7 (pyShr sample 8)
  let s1 : Int := if sign ≠ 0 then -sample else sample
  let s2 : Int := if s1 > MULAW_MAX then MULAW_MAX else s1
  let s3 : Int := s2 + MULAW_BIAS
  let exponent : Nat := findExponent s3
  let mantissa : Int := pyShr s3 (exponent + 3) % 16
  let mulaw_byte : Int := pyNot (sign + (exponent : Int) * 16 + mantissa)
  mulaw_byte % 256

/-- `MuLawConverter._mulaw_to_linear` (audio_service.py lines 43-57). -/
def mulaw_to_linear (mulaw_byte : Int) : Int :=
  let b : Int := pyNot mulaw_byte
  let sign : Int := pyBit7 b
  let exponent : Int := pyShr b 4 % 8
  let mantissa : Int := b % 16
  let sample : Int := (mantissa * 8 + MULAW_BIAS) * 2 ^ exponent.toNat - MULAW_BIAS
  if sign ≠ 0 then -sample else sample

/-- The inner `for j in range(1, upsample_factor)` loop of `mulaw_to_pcm16`:
interpolated samples `current + (next - current) * j // factor` for
`j = 1, ..., factor - 1` (Python `//` on a positive divisor is floor
division, i.e. `Int` `/`; the loop body never runs when `factor <= 1`,
so no division by zero can occur, matching Python). -/
def interpolated (current next : Int) (factor : Nat) : List Int :=
  (List.range (factor - 1)).map fun (j : Nat) =>
    current + (next - current) * ((j : Int) + 1) / (factor : Int)

/-- The pairwise upsampling loop of `mulaw_to_pcm16`: each sample except the
last contributes itself plus `factor - 1` interpolated samples; the final
`if pcm_samples: upsampled.append(pcm_samples[-1])` contributes the last. -/
def upsampleFrom (factor : Nat) : Int → List Int → List Int
  | x, [] => [x]
  | x, y :: rest => (x :: interpolated x y factor) ++ upsampleFrom factor y rest

/-- Upsampling stage of `mulaw_to_pcm16` (empty input yields empty output,
as the Python loop body never runs and the final append is guarded). -/
def upsample (factor : Nat) : List Int → List Int
  | [] => []
  | x :: rest => upsampleFrom factor x rest

/-- The two little-endian bytes of one 16-bit sample, as produced by
`struct.pack('<...h', ...)` for an in-range sample. -/
def int16Bytes (s : Int) : List Int := [s % 65536 % 256, s % 65536 / 256]

/-- `struct.pack(f'<\x7blen\x7dh', *upsampled)`: raises `struct.error`
(modelled as `none`) unless every sample fits in a signed 16-bit int. -/
def packLE16 (samples : List Int) : Option (List Int) :=
  if samples.all fun s => decide (-32768 ≤ s) && decide (s ≤ 32767) then
    some (samples.flatMap int16Bytes)
  else none

/-- `MuLawConverter.mulaw_to_pcm16` (audio_service.py lines 59-98), over byte
lists; `upsample_factor = output_rate // input_rate` is Nat division. -/
def mulaw_to_pcm16 (mulaw_data : List Int)
    (input_rate output_rate : Nat) : Option (List Int) :=
  let pcm_samples := mulaw_data.map mulaw_to_linear
  let upsample_factor := output_rate / input_rate
  packLE16 (upsample upsample_factor pcm_samples)

/-- Two's-complement reinterpretation done by `struct.unpack('<...h', ...)`
on the unsigned little-endian value of a byte pair. -/
def toSigned16 (u : Int) : Int := if 32768 ≤ u then u - 65536 else u

/-- `struct.unpack(f'<\x7bnum_samples\x7dh', pcm16_data)` with
`num_samples = len(pcm16_data) // 2`: raises `struct.error` (modelled as
`none`) when the buffer length is odd, else yields the signed samples. -/
def unpackLE16 : List Int → Option (List Int)
  | [] => some []
  | [_] => none
  | lo :: hi :: rest =>
    (unpackLE16 rest).map fun t => toSigned16 (lo + 256 * hi) :: t

/-- Python slice `samples[::k]` for a positive step `k`: element 0, then
every `k`-th element. -/
def sliceStep (k : Nat) : List Int → List Int
  | [] => []
  | x :: rest => x :: sliceStep k (rest.drop (k - 1))
termination_by l => l.length
decreasing_by simp only [List.length_cons, List.length_drop]; omega

/-- The final `bytes([...])` construction of `pcm16_to_mulaw`: raises
`ValueError` (modelled as `none`) unless every value is in `[0, 256)`. -/
def bytesOf (l : List Int) : Option (List Int) :=
  if l.all fun b => decide (0 ≤ b) && decide (b < 256) then some l else none

/-- `MuLawConverter.pcm16_to_mulaw` (audio_service.py lines 100-124), over
byte lists. `downsample_factor = input_rate // output_rate` is Nat division;
a zero step makes the Python slice raise `ValueError` (modelled as `none`,
also covering the `ZeroDivisionError` of a zero `output_rate`). -/
def pcm16_to_mulaw (pcm16_data : List Int)
    (input_rate output_rate : Nat) : Option (List Int) :=
  match unpackLE16 pcm16_data with
  | none => none
  | some samples =>
    let downsample_factor := input_rate / output_rate
    if downsample_factor = 0 then none
    else bytesOf ((sliceStep downsample_factor samples).map linear_to_mulaw)

end MuLawConverter

/-! Messages sent on the two legs.  The `services` connection-manager module
(`WebSocketConnectionManager`) is not among the sources; per spec §4.1/§4.2
its `send` operations enqueue ordered outbound frames, so a handler's sends
are modelled as the ordered list of frames it produces. -/

/-- Outbound telephony-leg frames (spec §6: media / mark / clear). -/
inductive TwilioMsg
  | media (streamSid : String) (payload : String)
  | mark (streamSid : String) (name : String)
  | clear (streamSid : String)
deriving DecidableEq

/-- Outbound AI-leg messages used by the embedded handlers. -/
inductive AIMsg
  | responseCancel
  | responseCreate (instructions : String)
  | inputAudioAppend (audio : String)
deriving DecidableEq

/-- Number of `clear` frames in a telephony-leg output list. -/
def countClear (l : List TwilioMsg) : Nat :=
  (l.filter fun m => match m with | .clear _ => true | _ => false).length

/-- Number of `media` frames in a telephony-leg output list. -/
def countMedia (l : List TwilioMsg) : Nat :=
  (l.filter fun m => match m with | .media _ _ => true | _ => false).length

/-- Number of `response.cancel` messages in an AI-leg output list. -/
def countCancel (l : List AIMsg) : Nat :=
  (l.filter fun m => match m with | .responseCancel => true | _ => false).length

namespace Config

/-- `Config.COMPANY_NAME` (config.py line 19): environment override with
default `'Finlumina VOX'`; modelled at its default. -/
def COMPANY_NAME : String := "Finlumina VOX"

/-- `Config.END_CALL_FAREWELL_TEMPLATE.format(company=company)`
(config.py lines 158-161, 172). -/
def farewellTemplate (company : String) : String :=
  "Please deliver a brief, polite goodbye to the caller on behalf of " ++
  company ++
  ". Keep it to one short sentence. Do not call any tools; speak the goodbye now."

/-- `Config.build_end_call_farewell` (config.py lines 170-175); `or 'our
team'` applies Python falsiness to the company string, and the reason is
used only when it is a string with non-whitespace content. -/
def build_end_call_farewell (reason : Option String) : String :=
  let company := if pyStrEmpty COMPANY_NAME then "our team" else COMPANY_NAME
  let base := farewellTemplate company
  match reason with
  | some r =>
    if pyStrEmpty (pyStrip r) then base
    else base ++ " Acknowledge that the caller requested to end the call."
  | none => base

end Config

namespace TranscriptFilter

/-- `TranscriptFilter.NOISE_PATTERNS` (openai_service.py lines 256-270). -/
def NOISE_PATTERNS : List String :=
  ["thank you", "thanks", "bye", "okay", "ok", "yeah", "yes", "no",
   "um", "uh", "hmm", "mhm", "ah"]

/-- `TranscriptFilter.MIN_TRANSCRIPT_LENGTH`. -/
def MIN_TRANSCRIPT_LENGTH : Nat := 3

/-- `TranscriptFilter.MAX_NOISE_LENGTH`. -/
def MAX_NOISE_LENGTH : Nat := 15

/-- One iteration of the noise loop: `cleaned == pattern or
cleaned.startswith(pattern + " ") or cleaned.endswith(" " + pattern)`. -/
def noiseMatch (cleaned p : String) : Bool :=
  cleaned == p || pyStartsWith cleaned (p ++ " ") || pyEndsWith cleaned (" " ++ p)

/-- `TranscriptFilter.is_valid_transcript` (openai_service.py lines 275-299).
Python `text.strip().lower()` is `pyStrip`/`pyLower` (exact on the ASCII
fragment); `not text` is emptiness; `isinstance` is subsumed by typing. -/
def is_valid_transcript (text : String) (speaker : String) : Bool :=
  if pyStrEmpty text then false
  else
    let cleaned := pyLower (pyStrip text)
    if cleaned.length < MIN_TRANSCRIPT_LENGTH then false
    else if speaker == "Human" then true
    else if speaker == "AI" then true
    else if cleaned.length ≤ MAX_NOISE_LENGTH then
      !NOISE_PATTERNS.any (noiseMatch cleaned)
    else true

end TranscriptFilter

namespace RomanScriptConverter

/-- Outcome of the external transliteration HTTP call in
`convert_to_roman`: a 200 response with extracted content, a non-200
status, or a raised exception / timeout (JSON-extraction failures raise
and therefore also land in `exn`). -/
inductive HttpOutcome
  | ok (content : String)
  | badStatus
  | exn
deriving DecidableEq

/-- `any('؀' <= char <= 'ۿ' or 'ऀ' <= char <= 'ॿ' for
char in text)` (openai_service.py line 60). -/
def has_urdu_hindi (text : String) : Bool :=
  text.data.any fun c =>
    (decide ('؀' ≤ c) && decide (c ≤ 'ۿ')) ||
    (decide ('ऀ' ≤ c) && decide (c ≤ 'ॿ'))

/-- Result of `convert_to_roman`: the returned text, plus whether the
external HTTP call was attempted at all. -/
structure RomanResult where
  text : String
  calledExternal : Bool
deriving DecidableEq

/-- `RomanScriptConverter.convert_to_roman` (openai_service.py lines 50-117),
with the network interaction abstracted into an `HttpOutcome` parameter.
The entire Python body sits inside `try/except` returning the original
text, so the embedding is a total function. -/
def convert_to_roman (text : String) (outcome : HttpOutcome) : RomanResult :=
  if !has_urdu_hindi text then ⟨text, false⟩
  else
    match outcome with
    | .ok content => ⟨pyStrip content, true⟩
    | .badStatus => ⟨text, true⟩
    | .exn => ⟨text, true⟩

end RomanScriptConverter

namespace OpenAIService

/-- The goodbye-related state of `OpenAIService`: `_pending_goodbye`,
`_goodbye_audio_heard`, `_goodbye_item_id`, and `_goodbye_watchdog`,
the latter modelled by the wall-clock instant at which the armed watchdog
task's `asyncio.sleep(timeout)` elapses (`none` = no live task).
`finalized` records that `finalize_goodbye` ran (grace sleep, optional
provider REST hangup, and closing the telephony link). -/
structure GoodbyeSys where
  pending : Bool
  audioHeard : Bool
  itemId : Option String
  watchdogDeadline : Option Int
  finalized : Bool
deriving DecidableEq

/-- The constructor state (openai_service.py lines 314-318). -/
def initGoodbye : GoodbyeSys :=
  { pending := false, audioHeard := false, itemId := none,
    watchdogDeadline := none, finalized := false }

/-- `OpenAIService.mark_goodbye_audio_heard` (openai_service.py lines
585-590): only while pending, record the audio confirmation, keep the
first item id seen, and cancel the watchdog. -/
def mark_goodbye_audio_heard (st : GoodbyeSys) (item_id : Option String) :
    GoodbyeSys :=
  if st.pending then
    { st with
      audioHeard := true
      itemId :=
        match item_id, st.itemId with
        | some i, none => some i
        | _, _ => st.itemId
      watchdogDeadline := none }
  else st

/-- `OpenAIService._start_goodbye_watchdog` (openai_service.py lines
592-606): cancel any previous watchdog, then arm a task that will run its
body `timeout` seconds from now — i.e. the deadline field is overwritten. -/
def _start_goodbye_watchdog (st : GoodbyeSys) (now timeout : Int) : GoodbyeSys :=
  { st with watchdogDeadline := some (now + timeout) }

/-- `OpenAIService.finalize_goodbye` (openai_service.py lines 558-580):
clears the goodbye flags, cancels the watchdog, then (after the grace
delay) requests provider hangup and closes the telephony link. -/
def finalize_goodbye (st : GoodbyeSys) : GoodbyeSys :=
  { st with pending := false, audioHeard := false, itemId := none,
            watchdogDeadline := none, finalized := true }

/-- A tool invocation as produced by `accumulate_tool_call`. -/
structure ToolCall where
  name : String
  reason : Option String
deriving DecidableEq

/-- `OpenAIService.maybe_handle_tool_call` (openai_service.py lines
502-523): returns the Python result, the successor state, and the AI-leg
messages sent.  The farewell `response.create` is sent before the flags
are set and the watchdog armed, exactly as in the source. -/
def maybe_handle_tool_call (st : GoodbyeSys) (tool : Option ToolCall)
    (now timeout : Int) : Bool × GoodbyeSys × List AIMsg :=
  match tool with
  | none => (false, st, [])
  | some tc =>
    if tc.name ≠ "end_call" then (false, st, [])
    else if st.pending then (false, st, [])
    else
      (true,
       _start_goodbye_watchdog
         { st with pending := true, audioHeard := false, itemId := none }
         now timeout,
       [AIMsg.responseCreate (Config.build_end_call_farewell tc.reason)])

/-- Events touching the goodbye state.  `watchdogFire t` is the watchdog
task's body running after its uninterrupted `asyncio.sleep`: under
cooperative scheduling it can only happen if the task armed for deadline
`t` was never cancelled nor replaced in the meantime, which the step
function encodes by requiring `watchdogDeadline = some t`. -/
inductive GEvent
  | toolCall (tc : Option ToolCall) (now : Int)
  | audioHeardAt (item_id : Option String)
  | watchdogFire (t : Int)

/-- Whether an event is a tool-call invocation (the only event that can
arm a new watchdog). -/
def GEvent.isToolCallEvent : GEvent → Bool
  | .toolCall _ _ => true
  | _ => false

/-- One goodbye-subsystem step.  The watchdog body (openai_service.py
lines 596-603) finalizes only when the goodbye is still pending with no
audio heard; in every case the fired task is finished afterwards. -/
def gstep (timeout : Int) (st : GoodbyeSys) : GEvent → GoodbyeSys
  | .toolCall tc now => (maybe_handle_tool_call st tc now timeout).2.1
  | .audioHeardAt i => mark_goodbye_audio_heard st i
  | .watchdogFire t =>
    if st.watchdogDeadline = some t then
      if st.pending && !st.audioHeard then finalize_goodbye st
      else { st with watchdogDeadline := none }
    else st

/-- Left fold of `gstep` over an event sequence. -/
def grun (timeout : Int) (st : GoodbyeSys) : List GEvent → GoodbyeSys
  | [] => st
  | e :: es => grun timeout (gstep timeout st e) es

/-- Number of tool calls accepted (result `True`) along a sequence of
`maybe_handle_tool_call` invocations threading the goodbye state. -/
def countHandled (now timeout : Int) (st : GoodbyeSys) :
    List (Option ToolCall) → Nat
  | [] => 0
  | tc :: rest =>
    match maybe_handle_tool_call st tc now timeout with
    | (ok, st', _) => (if ok then 1 else 0) + countHandled now timeout st' rest

end OpenAIService

namespace TranscriptPipeline

/-- Speaker categories of `self._last_transcript_time`
(openai_service.py line 326). -/
inductive Speaker
  | caller
  | ai
  | human
deriving DecidableEq

/-- The `_last_transcript_time` dictionary. -/
structure TranscriptTimes where
  caller : Int
  ai : Int
  human : Int
deriving DecidableEq

/-- `{"Caller": 0, "AI": 0, "Human": 0}`. -/
def initialTimes : TranscriptTimes := ⟨0, 0, 0⟩

/-- Dictionary lookup `self._last_transcript_time.get(speaker, 0)`. -/
def lastTime (st : TranscriptTimes) : Speaker → Int
  | .caller => st.caller
  | .ai => st.ai
  | .human => st.human

/-- Dictionary update `self._last_transcript_time[speaker] = t`. -/
def setTime (st : TranscriptTimes) : Speaker → Int → TranscriptTimes
  | .caller, t => { st with caller := t }
  | .ai, t => { st with ai := t }
  | .human, t => { st with human := t }

/-- One transcript arrival: its attributed speaker, whether the earlier
guards (non-empty transcript, noise filter) passed — failing them returns
without touching the time dictionary — and the `time.time()` value at the
guard (timestamps modelled as integers). -/
structure TEvent where
  speaker : Speaker
  valid : Bool
  now : Int

/-- The shared tail of `extract_caller_transcript`, `extract_ai_transcript`
and `extract_human_transcript` (openai_service.py lines 645-660, 698-712,
433-448): drop the transcript when `current_time` precedes the speaker's
last emitted time, otherwise record the time and emit to the callback. -/
def transcriptStep (st : TranscriptTimes) (e : TEvent) :
    Option (Speaker × Int) × TranscriptTimes :=
  if !e.valid then (none, st)
  else if e.now < lastTime st e.speaker then (none, st)
  else (some (e.speaker, e.now), setTime st e.speaker e.now)

/-- Processing a whole arrival sequence, collecting the emitted
transcripts in arrival order. -/
def runTranscripts (st : TranscriptTimes) : List TEvent → List (Speaker × Int)
  | [] => []
  | e :: es =>
    let r := transcriptStep st e
    match r.1 with
    | none => runTranscripts r.2 es
    | some o => o :: runTranscripts r.2 es

/-- The timestamps emitted for one speaker, in emission order. -/
def emittedTimes (sp : Speaker) (out : List (Speaker × Int)) : List Int :=
  (out.filter fun o => o.1 == sp).map Prod.snd

end TranscriptPipeline

namespace Server

/-- One element of `ai_audio_queue` (a dict with `audio` and `timestamp`,
server.py lines 1499-1502). -/
structure AudioData where
  audio : String
  timestamp : Int
deriving DecidableEq

/-- A dashboard broadcast (observer fan-out) of AI audio. -/
inductive DashboardMsg
  | audio (speaker : String) (payload : String) (callSid : String)
deriving DecidableEq

/-- The `while not ai_audio_queue.empty(): get_nowait()` drain loop of
`handle_speech_started` (server.py lines 1534-1541), returning the number
of packets cleared and the resulting queue (no concurrent producer). -/
def drainLoop : List AudioData → Nat × List AudioData
  | [] => (0, [])
  | _ :: rest =>
    match drainLoop rest with
    | (c, q) => (c + 1, q)

/-- Modelled from the spec: `WebSocketConnectionManager.send_mark_to_twilio`
lives in the `services` connection-manager module, which is not among the
sources.  Spec §4.5 step 5 says the interruption path ends by emitting one
immediate synchronization mark to the telephony leg. -/
def send_mark_to_twilio (streamSid : Option String) : List TwilioMsg :=
  match streamSid with
  | some sid => [TwilioMsg.mark sid "responsePart"]
  | none => []

/-- Result of one `handle_speech_started` invocation: frames sent on each
leg, the AI audio queue afterwards, and the assignment (if any) made to
`ai_currently_speaking`. -/
structure SpeechStartedResult where
  twilioOut : List TwilioMsg
  openaiOut : List AIMsg
  queueAfter : List AudioData
  aiSpeakingAfter : Option Bool
deriving DecidableEq

/-- `handle_speech_started` (server.py lines 1507-1548): when a human has
taken over, nothing happens; otherwise send `clear` to the telephony leg
(when a stream id is known), send `response.cancel` to the AI leg, drain
the AI audio queue, reset `ai_currently_speaking`, and emit a mark. -/
def handle_speech_started (humanInControl : Bool) (streamSid : Option String)
    (queue : List AudioData) : SpeechStartedResult :=
  if humanInControl then
    { twilioOut := [], openaiOut := [], queueAfter := queue,
      aiSpeakingAfter := none }
  else
    let clearOut : List TwilioMsg :=
      match streamSid with
      | some sid => [TwilioMsg.clear sid]
      | none => []
    let cancelOut : List AIMsg := [AIMsg.responseCancel]
    let queueAfter := (drainLoop queue).2
    { twilioOut := clearOut ++ send_mark_to_twilio streamSid,
      openaiOut := cancelOut,
      queueAfter := queueAfter,
      aiSpeakingAfter := some false }

/-- Result of one `ai_audio_streamer` loop iteration: dashboard broadcasts,
whether the packet was paced (the real-time `asyncio.sleep` for its
duration), whether the loop stopped, and the assignment (if any) made to
`ai_currently_speaking`. -/
structure StreamerStepResult where
  dashboardOut : List DashboardMsg
  paced : Bool
  stopped : Bool
  aiSpeakingAfter : Option Bool
deriving DecidableEq

/-- One iteration of `ai_audio_streamer` (server.py lines 1138-1182) after
dequeuing `item` (`none` is the `None` stop sentinel): packets dequeued
while a human is in control are discarded — not broadcast, not paced. -/
def ai_audio_streamer_step (humanInControl : Bool) (callSid : Option String)
    (item : Option AudioData) : StreamerStepResult :=
  match item with
  | none => ⟨[], false, true, none⟩
  | some a =>
    if humanInControl then ⟨[], false, false, none⟩
    else
      let dash :=
        match callSid with
        | some sid => [DashboardMsg.audio "AI" a.audio sid]
        | none => []
      ⟨dash, true, false, some true⟩

/-- Result of one `handle_audio_delta` invocation: telephony-leg frames
and the packets enqueued for the dashboard streamer via `handle_ai_audio`. -/
structure AudioDeltaResult where
  twilioOut : List TwilioMsg
  enqueued : List AudioData
deriving DecidableEq

/-- `handle_audio_delta` (server.py lines 1373-1505), keeping the
message-producing control flow and eliding the latency bookkeeping.
`delta` is the extracted audio delta with `none` for a missing or empty
(falsy) delta; on success a `media` frame and a mark are sent to the
telephony leg and the packet is queued for the dashboard streamer. -/
def handle_audio_delta (humanInControl : Bool) (streamSid : Option String)
    (delta : Option String) (now : Int) : AudioDeltaResult :=
  if humanInControl then ⟨[], []⟩
  else
    match delta with
    | none => ⟨[], []⟩
    | some d =>
      let twilioOut :=
        match streamSid with
        | some sid => [TwilioMsg.media sid d, TwilioMsg.mark sid "responsePart"]
        | none => []
      ⟨twilioOut, [⟨d, now⟩]⟩

end Server

/-! ## Helper lemmas -/

namespace MuLawConverter

set_option maxRecDepth 4096 in
/-- Decoding any mu-law byte yields a sample inside the signed 16-bit
range (checked exhaustively over all 256 bytes). -/
theorem mulaw_to_linear_bounds_nat :
    ∀ n : Nat, n < 256 →
      -32768 ≤ mulaw_to_linear n ∧ mulaw_to_linear n ≤ 32767 := by decide

/-- Version of the decoder range fact for an integer byte. -/
theorem mulaw_to_linear_int16 {b : Int} (h0 : 0 ≤ b) (h1 : b < 256) :
    -32768 ≤ mulaw_to_linear b ∧ mulaw_to_linear b ≤ 32767 := by
  have hb : ((b.toNat : Nat) : Int) = b := Int.toNat_of_nonneg h0
  rw [← hb]
  exact mulaw_to_linear_bounds_nat b.toNat (by omega)

/-- The encoder's final `& 0xFF` lands in the byte range for any input. -/
theorem linear_to_mulaw_mem_byte (s : Int) :
    0 ≤ linear_to_mulaw s ∧ linear_to_mulaw s < 256 :=
  ⟨Int.emod_nonneg _ (by norm_num), Int.emod_lt_of_pos _ (by norm_num)⟩

/-- `bytes([...])` never raises on encoder output. -/
theorem bytesOf_map_encode (l : List Int) :
    bytesOf (l.map linear_to_mulaw) = some (l.map linear_to_mulaw) := by
  unfold bytesOf
  rw [if_pos]
  rw [List.all_eq_true]
  intro b hb
  simp only [List.mem_map] at hb
  obtain ⟨s, _, rfl⟩ := hb
  have h := linear_to_mulaw_mem_byte s
  simp [h.1, h.2]

/-- `struct.unpack` succeeds on even-length byte lists, producing half as
many samples. -/
theorem unpackLE16_even :
    ∀ l : List Int, l.length % 2 = 0 →
      ∃ t, unpackLE16 l = some t ∧ t.length = l.length / 2
  | [], _ => ⟨[], rfl, rfl⟩
  | [_], h => by simp at h
  | lo :: hi :: rest, h => by
    obtain ⟨t, ht, hl⟩ := unpackLE16_even rest
      (by simp only [List.length_cons] at h; omega)
    refine ⟨toSigned16 (lo + 256 * hi) :: t, ?_, ?_⟩
    · simp [unpackLE16, ht]
    · simp only [List.length_cons, hl]
      omega

/-- The inner loop emits exactly `factor - 1` interpolated samples. -/
theorem interpolated_length (c nx : Int) (f : Nat) :
    (interpolated c nx f).length = f - 1 := by
  rw [interpolated, List.length_map, List.length_range]

/-- Every interpolated sample lies between its two endpoints' bounds:
floor division keeps `c + (nx - c) * j / f` inside `[min c nx, max c nx]`. -/
theorem interpolated_bounds {lo hi c nx : Int} (f : Nat)
    (hc1 : lo ≤ c) (hc2 : c ≤ hi) (hn1 : lo ≤ nx) (hn2 : nx ≤ hi) :
    ∀ v ∈ interpolated c nx f, lo ≤ v ∧ v ≤ hi := by
  intro v hv
  rw [interpolated] at hv
  obtain ⟨j, hjmem, rfl⟩ := List.mem_map.mp hv
  have hj : j < f - 1 := List.mem_range.mp hjmem
  have hf : (0 : Int) < (f : Int) := by
    have : 1 ≤ f := by omega
    exact_mod_cast this
  have hjf : ((j : Int) + 1) ≤ (f : Int) := by
    have : j + 1 ≤ f := by omega
    exact_mod_cast this
  have hj0 : (0 : Int) ≤ (j : Int) + 1 := by positivity
  rcases le_total c nx with hcn | hcn
  · have hd : (0 : Int) ≤ nx - c := by omega
    have hq0 : 0 ≤ (nx - c) * ((j : Int) + 1) / (f : Int) :=
      Int.ediv_nonneg (mul_nonneg hd hj0) (le_of_lt hf)
    have hqd : (nx - c) * ((j : Int) + 1) / (f : Int) ≤ nx - c := by
      have hmul : (nx - c) * ((j : Int) + 1) ≤ (nx - c) * (f : Int) :=
        mul_le_mul_of_nonneg_left hjf hd
      have := Int.ediv_le_ediv hf hmul
      rwa [Int.mul_ediv_cancel _ (ne_of_gt hf)] at this
    constructor <;> omega
  · have hd : nx - c ≤ 0 := by omega
    have hq0 : (nx - c) * ((j : Int) + 1) / (f : Int) ≤ 0 := by
      have hmul : (nx - c) * ((j : Int) + 1) ≤ 0 :=
        mul_nonpos_of_nonpos_of_nonneg hd hj0
      have := Int.ediv_le_ediv hf hmul
      rwa [Int.zero_ediv] at this
    have hqd : nx - c ≤ (nx - c) * ((j : Int) + 1) / (f : Int) := by
      have hmul : (nx - c) * (f : Int) ≤ (nx - c) * ((j : Int) + 1) :=
        mul_le_mul_of_nonpos_left hjf hd
      have := Int.ediv_le_ediv hf hmul
      rwa [Int.mul_ediv_cancel _ (ne_of_gt hf)] at this
    constructor <;> omega

/-- Bounds propagate through the whole upsampling loop. -/
theorem upsampleFrom_bounds {lo hi : Int} (f : Nat) :
    ∀ (l : List Int) (x : Int), lo ≤ x → x ≤ hi →
      (∀ y ∈ l, lo ≤ y ∧ y ≤ hi) →
      ∀ v ∈ upsampleFrom f x l, lo ≤ v ∧ v ≤ hi := by
  intro l
  induction l with
  | nil =>
    intro x hx1 hx2 _ v hv
    simp only [upsampleFrom, List.mem_singleton] at hv
    subst hv
    exact ⟨hx1, hx2⟩
  | cons y rest ih =>
    intro x hx1 hx2 hl v hv
    have hy := hl y (by simp)
    simp only [upsampleFrom, List.cons_append, List.mem_cons,
      List.mem_append] at hv
    rcases hv with rfl | hv | hv
    · exact ⟨hx1, hx2⟩
    · exact interpolated_bounds f hx1 hx2 hy.1 hy.2 v hv
    · exact ih y hy.1 hy.2 (fun z hz => hl z (by simp [hz])) v hv

/-- Length of the upsampling loop's output: each of the `l.length` adjacent
pairs contributes `f` samples, plus the trailing sample. -/
theorem upsampleFrom_length (f : Nat) (hf : 1 ≤ f) :
    ∀ (l : List Int) (x : Int),
      (upsampleFrom f x l).length = l.length * f + 1 := by
  intro l
  induction l with
  | nil => intro x; simp [upsampleFrom]
  | cons y rest ih =>
    intro x
    simp only [upsampleFrom, List.length_append, List.length_cons,
      interpolated_length, ih y, Nat.succ_mul]
    omega

/-- Each 16-bit sample packs to exactly two bytes. -/
theorem flatMap_int16Bytes_length :
    ∀ l : List Int, (l.flatMap int16Bytes).length = 2 * l.length := by
  intro l
  induction l with
  | nil => rfl
  | cons x xs ih =>
    simp only [List.flatMap_cons, List.length_append, ih, int16Bytes,
      List.length_cons, List.length_nil]
    omega

/-- `struct.pack` succeeds on samples inside the signed 16-bit range. -/
theorem packLE16_eq_some {samples : List Int}
    (h : ∀ s ∈ samples, -32768 ≤ s ∧ s ≤ 32767) :
    packLE16 samples = some (samples.flatMap int16Bytes) := by
  unfold packLE16
  rw [if_pos]
  rw [List.all_eq_true]
  intro s hs
  have hb := h s hs
  simp [hb.1, hb.2]

/-- Length of a stride-`k` slice of a list of `n * k + 1` elements. -/
theorem sliceStep_length_shape (k : Nat) (hk : 1 ≤ k) :
    ∀ (n : Nat) (l : List Int), l.length = n * k + 1 →
      (sliceStep k l).length = n + 1 := by
  intro n
  induction n with
  | zero =>
    intro l hl
    simp only [Nat.zero_mul, Nat.zero_add] at hl
    match l, hl with
    | [x], _ =>
      simp [sliceStep]
  | succ m ih =>
    intro l hl
    match l with
    | [] => simp at hl
    | x :: rest =>
      have hrest : rest.length = m * k + k := by
        simp only [List.length_cons, Nat.succ_mul] at hl ⊢
        omega
      have hdrop : (rest.drop (k - 1)).length = m * k + 1 := by
        simp only [List.length_drop, hrest]
        omega
      simp only [sliceStep, List.length_cons, ih _ hdrop]

end MuLawConverter

/-! ## Claim theorems -/

namespace Claims

open MuLawConverter

/-- C1: the spec demands that `decode(encode(x))` stay within one mu-law
quantization step of `x` for `x ∈ {-32768, -1, 0, 1, 32767}`.  On the code
the round trip lands at 2108, 2108, -2108, 24956, -24956 respectively, and
every error exceeds 1024 — the step width `1 << (7 + 3)` of the widest
exponent band, hence of any band — so the property fails at all five
points.  The encoder's exponent search (`sample >= 1 << (exp + 3)`) is
inconsistent with the decoder's reconstruction
(`((mantissa << 3) + BIAS) << exponent`), contradicting the class's own
claim to implement ITU-T G.711. -/
theorem c1_mulaw_roundtrip_breaks_quantization_bound :
    mulaw_to_linear (linear_to_mulaw 0) = 2108 ∧
    mulaw_to_linear (linear_to_mulaw 1) = 2108 ∧
    mulaw_to_linear (linear_to_mulaw (-1)) = -2108 ∧
    mulaw_to_linear (linear_to_mulaw 32767) = 24956 ∧
    mulaw_to_linear (linear_to_mulaw (-32768)) = -24956 ∧
    ∀ x ∈ ([-32768, -1, 0, 1, 32767] : List Int),
      1024 < (mulaw_to_linear (linear_to_mulaw x) - x).natAbs := by decide

/-- C10: every signed 16-bit sample encodes into the byte range `[0, 255]`,
and `pcm16_to_mulaw` is total on every even-length byte string (at the
code's rates 24000 → 8000): the `bytes(...)` construction never raises. -/
theorem c10_linear_to_mulaw_byte_range_total :
    (∀ s : Int, -32768 ≤ s → s ≤ 32767 →
      0 ≤ linear_to_mulaw s ∧ linear_to_mulaw s < 256) ∧
    (∀ data : List Int, (∀ b ∈ data, 0 ≤ b ∧ b < 256) →
      data.length % 2 = 0 →
      (pcm16_to_mulaw data 24000 8000).isSome = true) := by
  refine ⟨fun s _ _ => linear_to_mulaw_mem_byte s, ?_⟩
  intro data _ heven
  obtain ⟨t, ht, _⟩ := unpackLE16_even data heven
  unfold pcm16_to_mulaw
  rw [ht]
  simp only [show ((24000 : Nat) / 8000 = 3) from rfl]
  rw [if_neg (by norm_num), bytesOf_map_encode]
  rfl

/-- C5: for a non-empty mu-law byte sequence and a rate pair whose ratio is
an integer factor `k ≥ 1`, upsampling via `mulaw_to_pcm16` and then
downsampling via `pcm16_to_mulaw` with the rates swapped succeeds and
returns exactly as many mu-law bytes as the input had. -/
theorem c5_upsample_downsample_length (data : List Int) (rLow rHigh k : Nat)
    (hne : data ≠ [])
    (hbytes : ∀ b ∈ data, 0 ≤ b ∧ b < 256)
    (hrl : 0 < rLow) (hk : 1 ≤ k) (hratio : rHigh = k * rLow) :
    ∃ pcm mu, mulaw_to_pcm16 data rLow rHigh = some pcm ∧
      pcm16_to_mulaw pcm rHigh rLow = some mu ∧
      mu.length = data.length := by
  have hfac : rHigh / rLow = k := by
    rw [hratio]
    exact Nat.mul_div_left k hrl
  obtain ⟨x, rest, rfl⟩ : ∃ x rest, data = x :: rest := by
    cases data with
    | nil => exact absurd rfl hne
    | cons x rest => exact ⟨x, rest, rfl⟩
  have hx := hbytes x (by simp)
  have hxb := mulaw_to_linear_int16 hx.1 hx.2
  have hub : ∀ v ∈ upsampleFrom k (mulaw_to_linear x)
      (rest.map mulaw_to_linear), -32768 ≤ v ∧ v ≤ 32767 := by
    apply upsampleFrom_bounds k (rest.map mulaw_to_linear)
      (mulaw_to_linear x) hxb.1 hxb.2
    intro y hy
    obtain ⟨b, hb, rfl⟩ := List.mem_map.mp hy
    have hbb := hbytes b (by simp [hb])
    exact mulaw_to_linear_int16 hbb.1 hbb.2
  have hul : (upsampleFrom k (mulaw_to_linear x)
      (rest.map mulaw_to_linear)).length = rest.length * k + 1 := by
    rw [upsampleFrom_length k hk, List.length_map]
  have hpcm : mulaw_to_pcm16 (x :: rest) rLow rHigh =
      some ((upsampleFrom k (mulaw_to_linear x)
        (rest.map mulaw_to_linear)).flatMap int16Bytes) := by
    unfold mulaw_to_pcm16
    rw [hfac]
    simp only [List.map_cons, upsample]
    exact packLE16_eq_some hub
  have hplen : ((upsampleFrom k (mulaw_to_linear x)
      (rest.map mulaw_to_linear)).flatMap int16Bytes).length =
      2 * (rest.length * k + 1) := by
    rw [flatMap_int16Bytes_length, hul]
  obtain ⟨t, ht, htl⟩ := unpackLE16_even _ (by omega : ((upsampleFrom k
      (mulaw_to_linear x) (rest.map mulaw_to_linear)).flatMap
      int16Bytes).length % 2 = 0)
  have htl' : t.length = rest.length * k + 1 := by
    rw [htl, hplen]
    omega
  have hmu : pcm16_to_mulaw ((upsampleFrom k (mulaw_to_linear x)
      (rest.map mulaw_to_linear)).flatMap int16Bytes) rHigh rLow =
      some ((sliceStep k t).map linear_to_mulaw) := by
    unfold pcm16_to_mulaw
    rw [ht]
    simp only [hfac]
    rw [if_neg (by omega)]
    exact bytesOf_map_encode _
  refine ⟨_, _, hpcm, hmu, ?_⟩
  rw [List.length_map, sliceStep_length_shape k hk rest.length t htl',
    List.length_cons]

/-- Witness for C5: one mu-law byte through the 8000 → 24000 → 8000 round
trip (integer factor 3). -/
theorem c5_witness :
    (([0] : List Int) ≠ [] ∧ (∀ b ∈ ([0] : List Int), 0 ≤ b ∧ b < 256) ∧
      0 < 8000 ∧ 1 ≤ 3 ∧ 24000 = 3 * 8000) ∧
    ∃ pcm mu, mulaw_to_pcm16 [0] 8000 24000 = some pcm ∧
      pcm16_to_mulaw pcm 24000 8000 = some mu ∧
      mu.length = ([0] : List Int).length :=
  ⟨⟨by decide, by decide, by decide, by decide, by decide⟩,
   c5_upsample_downsample_length [0] 8000 24000 3 (by decide) (by decide)
     (by decide) (by decide) (by decide)⟩

/-- Witness for C10 at sample `0` and the byte string `[190, 7]`. -/
theorem c10_witness :
    (-32768 ≤ (0 : Int) ∧ (0 : Int) ≤ 32767 ∧
      (0 ≤ linear_to_mulaw 0 ∧ linear_to_mulaw 0 < 256)) ∧
    ((∀ b ∈ ([190, 7] : List Int), 0 ≤ b ∧ b < 256) ∧
      ([190, 7] : List Int).length % 2 = 0 ∧
      (pcm16_to_mulaw [190, 7] 24000 8000).isSome = true) :=
  ⟨⟨by decide, by decide,
    c10_linear_to_mulaw_byte_range_total.1 0 (by decide) (by decide)⟩,
   ⟨by decide, by decide,
    c10_linear_to_mulaw_byte_range_total.2 [190, 7] (by decide) (by decide)⟩⟩

/-- The drain loop always leaves the queue empty (no concurrent producer). -/
theorem drainLoop_snd : ∀ q : List Server.AudioData, (Server.drainLoop q).2 = []
  | [] => rfl
  | _ :: rest => by
    simp only [Server.drainLoop]
    rw [drainLoop_snd rest]

/-- C2: after `handle_speech_started` runs to completion with the stream id
set, no human takeover, and no concurrent producer, the AI audio queue is
empty, exactly one `clear` frame went to the telephony leg, and exactly one
`response.cancel` went to the AI leg. -/
theorem c2_speech_started_effects (sid : String) (queue : List Server.AudioData) :
    (Server.handle_speech_started false (some sid) queue).queueAfter = [] ∧
    countClear (Server.handle_speech_started false (some sid) queue).twilioOut = 1 ∧
    countCancel (Server.handle_speech_started false (some sid) queue).openaiOut = 1 := by
  refine ⟨?_, rfl, rfl⟩
  simp only [Server.handle_speech_started, Bool.false_eq_true, if_false]
  exact drainLoop_snd queue

/-- C3: with the human-takeover flag active at dequeue time, the streamer
discards the AI packet — no broadcast, no pacing sleep — and
`handle_audio_delta` returns before producing any telephony frame or
enqueuing anything, so no AI-origin packet reaches the telephony leg. -/
theorem c3_takeover_discards_ai_audio (callSid : Option String)
    (a : Server.AudioData) (sid : Option String) (delta : Option String)
    (now : Int) :
    Server.ai_audio_streamer_step true callSid (some a) =
      { dashboardOut := [], paced := false, stopped := false,
        aiSpeakingAfter := none } ∧
    Server.handle_audio_delta true sid delta now =
      { twilioOut := [], enqueued := [] } :=
  ⟨rfl, rfl⟩

open OpenAIService in
/-- While a goodbye is pending, every tool call is refused with an
unchanged state and no outbound message. -/
theorem maybe_handle_tool_call_pending {st : GoodbyeSys}
    (hp : st.pending = true) (tool : Option ToolCall) (now timeout : Int) :
    maybe_handle_tool_call st tool now timeout = (false, st, []) := by
  cases tool with
  | none => rfl
  | some tc =>
    simp only [maybe_handle_tool_call]
    by_cases hn : tc.name ≠ "end_call"
    · rw [if_pos hn]
    · rw [if_neg hn, if_pos hp]

open OpenAIService in
/-- A pending goodbye accepts no further tool calls. -/
theorem countHandled_pending (now timeout : Int) :
    ∀ (l : List (Option ToolCall)) (st : GoodbyeSys), st.pending = true →
      countHandled now timeout st l = 0 := by
  intro l
  induction l with
  | nil => intro st _; rfl
  | cons tc rest ih =>
    intro st hp
    unfold countHandled
    rw [maybe_handle_tool_call_pending hp]
    simpa using ih st hp

open OpenAIService in
/-- The watchdog-arming successor state of a fresh end-call is pending. -/
theorem accepted_state_pending (st : GoodbyeSys) (now timeout : Int) :
    (_start_goodbye_watchdog
      { st with pending := true, audioHeard := false, itemId := none }
      now timeout).pending = true := rfl

open OpenAIService in
/-- At most one tool call in any sequence is accepted. -/
theorem countHandled_le_one (now timeout : Int) :
    ∀ (l : List (Option ToolCall)) (st : GoodbyeSys),
      countHandled now timeout st l ≤ 1 := by
  intro l
  induction l with
  | nil => intro st; exact Nat.zero_le 1
  | cons tc rest ih =>
    intro st
    by_cases hp : st.pending = true
    · rw [countHandled_pending now timeout (tc :: rest) st hp]
      exact Nat.zero_le 1
    · cases tc with
      | none =>
        simp only [countHandled, maybe_handle_tool_call]
        simpa using ih st
      | some tc =>
        simp only [countHandled, maybe_handle_tool_call]
        by_cases hn : tc.name ≠ "end_call"
        · simp only [if_pos hn]
          simpa using ih st
        · simp only [if_neg hn, if_neg hp]
          have h0 := countHandled_pending now timeout rest _
            (accepted_state_pending st now timeout)
          simp [h0]

open OpenAIService in
/-- C6: an `end_call` tool invocation handled while a goodbye is already
pending returns `False`, sends no second farewell, and leaves the entire
goodbye state (flags, item id, watchdog) unchanged; over any sequence of
tool calls the Idle-to-Pending transition is accepted at most once. -/
theorem c6_duplicate_end_call_ignored (st : GoodbyeSys)
    (tool : Option ToolCall) (now timeout : Int)
    (st0 : GoodbyeSys) (l : List (Option ToolCall))
    (hp : st.pending = true) :
    maybe_handle_tool_call st tool now timeout = (false, st, []) ∧
    countHandled now timeout st0 l ≤ 1 :=
  ⟨maybe_handle_tool_call_pending hp tool now timeout,
   countHandled_le_one now timeout l st0⟩

open OpenAIService in
/-- Witness for C6: a pending goodbye state refuses a duplicate
`end_call`, and a two-element call sequence is accepted at most once. -/
theorem c6_witness :
    (GoodbyeSys.mk true false none none false).pending = true ∧
    (maybe_handle_tool_call (GoodbyeSys.mk true false none none false)
        (some ⟨"end_call", none⟩) 0 4 =
      (false, GoodbyeSys.mk true false none none false, []) ∧
    countHandled 0 4 initGoodbye
      [some ⟨"end_call", none⟩, some ⟨"end_call", some "caller said bye"⟩] ≤ 1) :=
  ⟨rfl, c6_duplicate_end_call_ignored _ (some ⟨"end_call", none⟩) 0 4
    initGoodbye _ rfl⟩

open RomanScriptConverter in
/-- C9: when the transliteration call fails (exception, timeout, or
non-200 status) `convert_to_roman` returns the original text and raises
nothing (the embedding is total); and text with no Urdu/Hindi-script
character passes through unchanged without attempting the external call. -/
theorem c9_transliteration_degrades_gracefully :
    (∀ (text : String) (outcome : HttpOutcome),
      outcome = HttpOutcome.badStatus ∨ outcome = HttpOutcome.exn →
      (convert_to_roman text outcome).text = text) ∧
    (∀ text : String, has_urdu_hindi text = false →
      ∀ outcome : HttpOutcome,
        convert_to_roman text outcome = ⟨text, false⟩) := by
  constructor
  · rintro text outcome (rfl | rfl) <;>
      · unfold convert_to_roman
        split <;> rfl
  · intro text h outcome
    unfold convert_to_roman
    rw [if_pos]
    rw [h]
    rfl

open RomanScriptConverter in
/-- Witness for C9: a failing call on Urdu text passes the text through;
plain Latin text never reaches the external call. -/
theorem c9_witness :
    ((HttpOutcome.exn = HttpOutcome.badStatus ∨ HttpOutcome.exn = HttpOutcome.exn) ∧
      (convert_to_roman "ٹھیک ہے" HttpOutcome.exn).text = "ٹھیک ہے") ∧
    (has_urdu_hindi "hello" = false ∧
      convert_to_roman "hello" HttpOutcome.badStatus = ⟨"hello", false⟩) :=
  ⟨⟨Or.inr rfl,
    c9_transliteration_degrades_gracefully.1 "ٹھیک ہے" HttpOutcome.exn (Or.inr rfl)⟩,
   ⟨by decide,
    c9_transliteration_degrades_gracefully.2 "hello" (by decide) HttpOutcome.badStatus⟩⟩

open OpenAIService in
/-- No event other than a tool call can arm the watchdog. -/
theorem gstep_deadline_none (timeout : Int) (st : GoodbyeSys) (e : GEvent)
    (hd : st.watchdogDeadline = none) (he : e.isToolCallEvent = false) :
    (gstep timeout st e).watchdogDeadline = none := by
  cases e with
  | toolCall tc now => simp [GEvent.isToolCallEvent] at he
  | audioHeardAt i =>
    simp only [gstep, mark_goodbye_audio_heard]
    split
    · rfl
    · exact hd
  | watchdogFire t =>
    simp only [gstep]
    rw [if_neg (by simp [hd])]
    exact hd

open OpenAIService in
/-- A watchdog fire event is a no-op once the task has been cancelled. -/
theorem gstep_fire_of_none (timeout t : Int) (st : GoodbyeSys)
    (hd : st.watchdogDeadline = none) :
    gstep timeout st (GEvent.watchdogFire t) = st := by
  simp only [gstep]
  rw [if_neg (by simp [hd])]

open OpenAIService in
/-- Runs containing no tool call keep the watchdog disarmed. -/
theorem grun_deadline_none (timeout : Int) :
    ∀ (es : List GEvent) (st : GoodbyeSys), st.watchdogDeadline = none →
      (∀ e ∈ es, e.isToolCallEvent = false) →
      (grun timeout st es).watchdogDeadline = none := by
  intro es
  induction es with
  | nil => intro st hd _; exact hd
  | cons e es ih =>
    intro st hd hall
    exact ih _ (gstep_deadline_none timeout st e hd (hall e (by simp)))
      (fun e' he' => hall e' (by simp [he']))

open OpenAIService in
/-- C4: if goodbye audio is confirmed while the goodbye is pending and the
watchdog has not yet fired, the watchdog task is cancelled and — across any
subsequent events that do not start a new goodbye — a fire can never occur,
so the watchdog never triggers finalization; conversely, when the armed
deadline elapses with the goodbye still pending and no audio heard, the
fire runs `finalize_goodbye`, so the call is hung up anyway. -/
theorem c4_goodbye_watchdog (timeout : Int) (st : GoodbyeSys)
    (i : Option String) (es : List GEvent) (t : Int)
    (timeout2 t2 : Int) (st2 : GoodbyeSys)
    (hp : st.pending = true)
    (hes : ∀ e ∈ es, e.isToolCallEvent = false)
    (hd2 : st2.watchdogDeadline = some t2) (hp2 : st2.pending = true)
    (hh2 : st2.audioHeard = false) :
    (mark_goodbye_audio_heard st i).watchdogDeadline = none ∧
    gstep timeout (grun timeout (mark_goodbye_audio_heard st i) es)
        (GEvent.watchdogFire t) =
      grun timeout (mark_goodbye_audio_heard st i) es ∧
    (gstep timeout2 st2 (GEvent.watchdogFire t2)).finalized = true ∧
    (gstep timeout2 st2 (GEvent.watchdogFire t2)).pending = false := by
  have h1 : (mark_goodbye_audio_heard st i).watchdogDeadline = none := by
    simp only [mark_goodbye_audio_heard]
    rw [if_pos hp]
  refine ⟨h1,
    gstep_fire_of_none timeout t _ (grun_deadline_none timeout es _ h1 hes),
    ?_, ?_⟩ <;>
  · simp only [gstep]
    rw [if_pos (by rw [hd2]), if_pos (by rw [hp2, hh2]; rfl)]
    rfl

open OpenAIService in
/-- Witness for C4 at a concrete pending state, event list, and deadline. -/
theorem c4_witness :
    (GoodbyeSys.mk true false none (some 10) false).pending = true ∧
    (∀ e ∈ [GEvent.audioHeardAt (some "it_1"), GEvent.watchdogFire 10],
      e.isToolCallEvent = false) ∧
    (GoodbyeSys.mk true false none (some 14) false).watchdogDeadline = some 14 ∧
    (GoodbyeSys.mk true false none (some 14) false).pending = true ∧
    (GoodbyeSys.mk true false none (some 14) false).audioHeard = false ∧
    ((mark_goodbye_audio_heard (GoodbyeSys.mk true false none (some 10) false)
        (some "item_7")).watchdogDeadline = none ∧
      gstep 4 (grun 4 (mark_goodbye_audio_heard
          (GoodbyeSys.mk true false none (some 10) false) (some "item_7"))
          [GEvent.audioHeardAt (some "it_1"), GEvent.watchdogFire 10])
          (GEvent.watchdogFire 10) =
        grun 4 (mark_goodbye_audio_heard
          (GoodbyeSys.mk true false none (some 10) false) (some "item_7"))
          [GEvent.audioHeardAt (some "it_1"), GEvent.watchdogFire 10] ∧
      (gstep 4 (GoodbyeSys.mk true false none (some 14) false)
        (GEvent.watchdogFire 14)).finalized = true ∧
      (gstep 4 (GoodbyeSys.mk true false none (some 14) false)
        (GEvent.watchdogFire 14)).pending = false) :=
  ⟨rfl, by decide, rfl, rfl, rfl,
   c4_goodbye_watchdog 4 (GoodbyeSys.mk true false none (some 10) false)
     (some "item_7") [GEvent.audioHeardAt (some "it_1"), GEvent.watchdogFire 10]
     10 4 14 (GoodbyeSys.mk true false none (some 14) false)
     rfl (by decide) rfl rfl rfl⟩

open TranscriptPipeline in
/-- Updating one speaker's time leaves the other speakers' times alone. -/
theorem lastTime_setTime (st : TranscriptTimes) (sp sp' : Speaker) (t : Int) :
    lastTime (setTime st sp t) sp' = if sp = sp' then t else lastTime st sp' := by
  cases sp <;> cases sp' <;> simp [setTime, lastTime]

open TranscriptPipeline in
/-- An arrival failing the earlier guards is dropped without state change. -/
theorem transcriptStep_invalid {st : TranscriptTimes} {e : TEvent}
    (hv : e.valid = false) : transcriptStep st e = (none, st) := by
  simp [transcriptStep, hv]

open TranscriptPipeline in
/-- An arrival whose time precedes the speaker's last emitted time is
dropped without state change. -/
theorem transcriptStep_late {st : TranscriptTimes} {e : TEvent}
    (hv : e.valid = true) (hlt : e.now < lastTime st e.speaker) :
    transcriptStep st e = (none, st) := by
  simp [transcriptStep, hv, hlt]

open TranscriptPipeline in
/-- A valid, in-order arrival is emitted and its time recorded. -/
theorem transcriptStep_emit {st : TranscriptTimes} {e : TEvent}
    (hv : e.valid = true) (hlt : ¬e.now < lastTime st e.speaker) :
    transcriptStep st e =
      (some (e.speaker, e.now), setTime st e.speaker e.now) := by
  simp [transcriptStep, hv, hlt]

open TranscriptPipeline in
/-- Run equation for a dropped head arrival. -/
theorem runTranscripts_drop {st : TranscriptTimes} {e : TEvent}
    (es : List TEvent) (h : transcriptStep st e = (none, st)) :
    runTranscripts st (e :: es) = runTranscripts st es := by
  conv_lhs => rw [runTranscripts]
  rw [h]

open TranscriptPipeline in
/-- Run equation for an emitted head arrival. -/
theorem runTranscripts_emit {st st' : TranscriptTimes} {e : TEvent}
    {o : Speaker × Int} (es : List TEvent)
    (h : transcriptStep st e = (some o, st')) :
    runTranscripts st (e :: es) = o :: runTranscripts st' es := by
  conv_lhs => rw [runTranscripts]
  rw [h]

open TranscriptPipeline in
/-- Per-speaker projection of a cons. -/
theorem emittedTimes_cons (sp a : Speaker) (n : Int)
    (rest : List (Speaker × Int)) :
    emittedTimes sp ((a, n) :: rest) =
      if a = sp then n :: emittedTimes sp rest else emittedTimes sp rest := by
  by_cases h : a = sp <;> simp [emittedTimes, List.filter_cons, h]

open TranscriptPipeline in
/-- Every timestamp emitted for a speaker is at least the speaker's
recorded last-emitted time at the start of the run. -/
theorem emitted_lb (sp : Speaker) :
    ∀ (es : List TEvent) (st : TranscriptTimes) (t : Int),
      t ∈ emittedTimes sp (runTranscripts st es) → lastTime st sp ≤ t := by
  intro es
  induction es with
  | nil =>
    intro st t ht
    simp [runTranscripts, emittedTimes] at ht
  | cons e es ih =>
    intro st t ht
    by_cases hv : e.valid = true
    · by_cases hlt : e.now < lastTime st e.speaker
      · rw [runTranscripts_drop es (transcriptStep_late hv hlt)] at ht
        exact ih st t ht
      · rw [runTranscripts_emit es (transcriptStep_emit hv hlt),
          emittedTimes_cons] at ht
        by_cases hsp : e.speaker = sp
        · rw [if_pos hsp] at ht
          rcases List.mem_cons.mp ht with rfl | ht'
          · rw [← hsp]
            omega
          · have hlb := ih (setTime st e.speaker e.now) t ht'
            rw [lastTime_setTime, if_pos hsp] at hlb
            rw [← hsp]
            omega
        · rw [if_neg hsp] at ht
          have hlb := ih (setTime st e.speaker e.now) t ht
          rwa [lastTime_setTime, if_neg hsp] at hlb
    · rw [runTranscripts_drop es
        (transcriptStep_invalid (by simpa using hv))] at ht
      exact ih st t ht

open TranscriptPipeline in
/-- The per-speaker emitted timestamps are non-decreasing. -/
theorem emitted_chain (sp : Speaker) :
    ∀ (es : List TEvent) (st : TranscriptTimes),
      List.Chain' (· ≤ ·) (emittedTimes sp (runTranscripts st es)) := by
  intro es
  induction es with
  | nil => intro st; simp [runTranscripts, emittedTimes]
  | cons e es ih =>
    intro st
    by_cases hv : e.valid = true
    · by_cases hlt : e.now < lastTime st e.speaker
      · rw [runTranscripts_drop es (transcriptStep_late hv hlt)]
        exact ih st
      · rw [runTranscripts_emit es (transcriptStep_emit hv hlt),
          emittedTimes_cons]
        by_cases hsp : e.speaker = sp
        · rw [if_pos hsp]
          refine List.chain'_cons'.mpr ⟨?_, ih _⟩
          intro b hb
          have hmem : b ∈ emittedTimes sp
              (runTranscripts (setTime st e.speaker e.now) es) :=
            List.mem_of_mem_head? hb
          have hlb := emitted_lb sp es _ b hmem
          rwa [lastTime_setTime, if_pos hsp] at hlb
        · rw [if_neg hsp]
          exact ih _
    · rw [runTranscripts_drop es (transcriptStep_invalid (by simpa using hv))]
      exact ih st

open TranscriptPipeline in
/-- The emitted transcripts form a subsequence of the arrivals, preserving
arrival order. -/
theorem runTranscripts_sublist :
    ∀ (es : List TEvent) (st : TranscriptTimes),
      (runTranscripts st es).Sublist
        (es.map fun ev => (ev.speaker, ev.now)) := by
  intro es
  induction es with
  | nil => intro st; simp [runTranscripts]
  | cons e es ih =>
    intro st
    by_cases hv : e.valid = true
    · by_cases hlt : e.now < lastTime st e.speaker
      · rw [runTranscripts_drop es (transcriptStep_late hv hlt)]
        exact (ih st).cons _
      · rw [runTranscripts_emit es (transcriptStep_emit hv hlt)]
        exact (ih _).cons₂ _
    · rw [runTranscripts_drop es (transcriptStep_invalid (by simpa using hv))]
      exact (ih st).cons _

open TranscriptPipeline in
/-- C7: an arrival whose wall-clock time precedes the speaker's last
emitted time is dropped (no emission, no state change); consequently the
emitted transcripts of every speaker have non-decreasing timestamps and
the emitted sequence preserves arrival order for any input sequence. -/
theorem c7_transcripts_monotone_per_speaker (st : TranscriptTimes)
    (e : TEvent) (es : List TEvent) (sp : Speaker)
    (hv : e.valid = true) (hlt : e.now < lastTime st e.speaker) :
    transcriptStep st e = (none, st) ∧
    List.Chain' (· ≤ ·) (emittedTimes sp (runTranscripts st es)) ∧
    (runTranscripts st es).Sublist
      (es.map fun ev => (ev.speaker, ev.now)) :=
  ⟨transcriptStep_late hv hlt, emitted_chain sp es st,
   runTranscripts_sublist es st⟩

open TranscriptPipeline in
/-- Witness for C7: a late caller arrival against the initial state, and a
concrete out-of-order arrival sequence. -/
theorem c7_witness :
    (TEvent.mk Speaker.caller true (-1)).valid = true ∧
    (TEvent.mk Speaker.caller true (-1)).now <
      lastTime initialTimes (TEvent.mk Speaker.caller true (-1)).speaker ∧
    (transcriptStep initialTimes (TEvent.mk Speaker.caller true (-1)) =
        (none, initialTimes) ∧
      List.Chain' (· ≤ ·) (emittedTimes Speaker.caller
        (runTranscripts initialTimes
          [TEvent.mk Speaker.caller true 5, TEvent.mk Speaker.caller true 3,
           TEvent.mk Speaker.caller true 7])) ∧
      (runTranscripts initialTimes
          [TEvent.mk Speaker.caller true 5, TEvent.mk Speaker.caller true 3,
           TEvent.mk Speaker.caller true 7]).Sublist
        ([TEvent.mk Speaker.caller true 5, TEvent.mk Speaker.caller true 3,
          TEvent.mk Speaker.caller true 7].map
          fun ev => (ev.speaker, ev.now))) :=
  ⟨rfl, by decide,
   c7_transcripts_monotone_per_speaker initialTimes
     (TEvent.mk Speaker.caller true (-1))
     [TEvent.mk Speaker.caller true 5, TEvent.mk Speaker.caller true 3,
      TEvent.mk Speaker.caller true 7]
     Speaker.caller rfl (by decide)⟩

open TranscriptFilter in
/-- C8 counterexample: the claim says every non-empty text attributed to
the AI or the human operator passes the filter, but the minimum-length
guard runs before the speaker check, so the non-empty AI-attributed
transcript `"hi"` is rejected. -/
theorem c8_counterexample :
    is_valid_transcript "hi" "AI" = false ∧ "hi" ≠ "" := by
  constructor
  · rfl
  · decide

open TranscriptFilter in
/-- C8 (amended): a transcript attributed to `"AI"` or `"Human"` passes the
filter provided its stripped, lowercased form reaches the 3-character
minimum length (shorter text is rejected for every speaker); caller
utterances matching a short-acknowledgement pattern within the 15-character
noise threshold are rejected. -/
theorem c8_filter_speaker_rules :
    (∀ text speaker : String, speaker = "AI" ∨ speaker = "Human" →
      3 ≤ (pyLower (pyStrip text)).length →
      is_valid_transcript text speaker = true) ∧
    (∀ text : String, (pyLower (pyStrip text)).length ≤ 15 →
      (∃ p ∈ NOISE_PATTERNS, noiseMatch (pyLower (pyStrip text)) p = true) →
      is_valid_transcript text "Caller" = false) := by
  constructor
  · intro text speaker hs hlen
    have hne : pyStrEmpty text = false := by
      rcases h : pyStrEmpty text with _ | _
      · rfl
      · exfalso
        have hdata : text.data = [] := List.isEmpty_iff.mp h
        rw [pyLower, pyStrip, hdata] at hlen
        simp [String.length] at hlen
    unfold is_valid_transcript
    rw [hne]
    simp only [Bool.false_eq_true, if_false]
    rw [if_neg (by simp only [MIN_TRANSCRIPT_LENGTH]; omega)]
    rcases hs with rfl | rfl
    · rfl
    · rfl
  · intro text hlen hex
    unfold is_valid_transcript
    rcases he : pyStrEmpty text with _ | _
    · simp only [Bool.false_eq_true, if_false]
      by_cases h3 : (pyLower (pyStrip text)).length < MIN_TRANSCRIPT_LENGTH
      · rw [if_pos h3]
      · rw [if_neg h3]
        rw [show (("Caller" == "Human") = false) from rfl,
          show (("Caller" == "AI") = false) from rfl]
        simp only [Bool.false_eq_true, if_false]
        rw [if_pos (by simp only [MAX_NOISE_LENGTH]; omega)]
        obtain ⟨p, hp, hm⟩ := hex
        have hany := List.any_eq_true.mpr ⟨p, hp, hm⟩
        simp [hany]
    · rfl

open TranscriptFilter in
/-- Witness for C8 (amended) on a long AI transcript and the caller
utterance `"ok"` (noise-listed, within the threshold). -/
theorem c8_witness :
    (("AI" = "AI" ∨ ("AI" : String) = "Human") ∧
      3 ≤ (pyLower (pyStrip "hello there")).length ∧
      is_valid_transcript "hello there" "AI" = true) ∧
    ((pyLower (pyStrip "ok then")).length ≤ 15 ∧
      (∃ p ∈ NOISE_PATTERNS, noiseMatch (pyLower (pyStrip "ok then")) p = true) ∧
      is_valid_transcript "ok then" "Caller" = false) :=
  ⟨⟨Or.inl rfl, by decide,
    c8_filter_speaker_rules.1 "hello there" "AI" (Or.inl rfl) (by decide)⟩,
   ⟨by decide, ⟨"ok", by decide, by decide⟩,
    c8_filter_speaker_rules.2 "ok then" (by decide)
      ⟨"ok", by decide, by decide⟩⟩⟩

end Claims

end VoxSpec

